import Mathlib

/-!
Shallow embedding of the zero-lock screen locker (src/locker.rs) and proofs
about its session-lock state machine, output registry and surface lifecycle.

The embedded code is `App::init` and `App::update` from `src/locker.rs`:

* `WlOutput` handles are compared by identity; we model them as naturals.
* `SurfaceId::unique()` is a process-global fresh-id generator; the `App`
  of this process is its only consumer, so we model it as the counter
  `nextId` threaded through the application state.
* `HashMap<WlOutput, SurfaceId>` is modelled as an association list with
  (provably) unique keys; `insert` replaces the value of an existing key
  and `remove` deletes it, exactly as the Rust map does.
* An `iced::Command` value is modelled as the list of protocol commands it
  batches; `Command::none()` is the empty list.  `process::exit(0)`, which
  never returns, is modelled by the terminal command `exitProcess 0`.
* The `todo!()` arms of the `match` (Finished, NotSupported, Unfocused,
  `Message::None`) panic at runtime; `update` is therefore partial and we
  give it type `Option (App × List Command)`, with `Option.none` standing
  for the undefined (panicking) branches.
* `Local::now()` readings are an external input; `update` receives the
  current time `t` and `Message::Tick` stores it into `now`.
* The `core` and `flags` fields carry window-chrome configuration and no
  data any handler reads; they are omitted from the state.
-/

namespace ZeroLock

/-- Session state (`enum State` in locker.rs): `Locking`, `Locked`,
`Unlocking`, `Unlocked`. -/
inductive State
  | Locking
  | Locked
  | Unlocking
  | Unlocked
  deriving DecidableEq

/-- A compositor output handle (`WlOutput`), compared by identity. -/
abbrev Output := Nat

/-- A locally generated surface identifier (`SurfaceId`). -/
abbrev SurfaceId := Nat

/-- Output lifecycle events (`OutputEvent`).  The `OutputInfo` payloads of
`Created` and `InfoUpdate` are never read by the handler and are elided. -/
inductive OutputEvent
  | created
  | removed
  | infoUpdate
  deriving DecidableEq

/-- Session-lock protocol events (`SessionLockEvent`).  The payloads of
`Focused` and `Unfocused` (a lock object and a surface id) are only logged
by the handler; we carry them as naturals. -/
inductive SessionLockEvent
  | focused (a b : Nat)
  | locked
  | unlocked
  | finished
  | notSupported
  | unfocused (a b : Nat)
  deriving DecidableEq

/-- Internal messages (`enum Message` in locker.rs). -/
inductive Message
  | none
  | outputEvent (e : OutputEvent) (output : Output)
  | sessionLockEvent (e : SessionLockEvent)
  | unlock
  | tick
  deriving DecidableEq

/-- The protocol commands the app issues: `lock()`, `unlock()`,
`get_lock_surface(id, output)`, `destroy_lock_surface(id)`, and process
termination (`process::exit(code)`). -/
inductive Command
  | lockRequest
  | unlockRequest
  | createSurface (s : SurfaceId) (o : Output)
  | destroySurface (s : SurfaceId)
  | exitProcess (code : Nat)
  deriving DecidableEq

/-- Application state (`struct App`): clock value, output registry
(`surface_ids`), session state, and the fresh-surface-id counter backing
`SurfaceId::unique()`. -/
structure App where
  now : Nat
  surface_ids : List (Output × SurfaceId)
  state : State
  nextId : Nat
  deriving DecidableEq

/-- `HashMap` lookup on the association list model. -/
def lookup (k : Output) : List (Output × SurfaceId) → Option SurfaceId
  | [] => Option.none
  | p :: rest => if p.1 = k then some p.2 else lookup k rest

/-- `HashMap::insert`: replace the value if the key is present, append the
pair otherwise. -/
def insertPair (k : Output) (v : SurfaceId) : List (Output × SurfaceId) → List (Output × SurfaceId)
  | [] => [(k, v)]
  | p :: rest => if p.1 = k then (k, v) :: rest else p :: insertPair k v rest

/-- `HashMap::remove`: delete the entry with the given key, if any. -/
def eraseKey (k : Output) : List (Output × SurfaceId) → List (Output × SurfaceId)
  | [] => []
  | p :: rest => if p.1 = k then rest else p :: eraseKey k rest

/-- `App::init`: the app starts with an empty registry in `State::Unlocked`
and immediately issues the `lock()` request.  `t` is the `Local::now()`
reading. -/
def init (t : Nat) : App × List Command :=
  ({ now := t, surface_ids := [], state := State.Unlocked, nextId := 0 },
   [Command.lockRequest])

/-- `App::update`: one message-handling step.  `t` is the `Local::now()`
reading used by `Message::Tick`.  Branches that are `todo!()` in the source
return `Option.none`. -/
def update (t : Nat) (app : App) (msg : Message) : Option (App × List Command) :=
  match msg with
  | Message.outputEvent oe output =>
    match oe with
    | OutputEvent.created =>
      some ({ app with
                surface_ids := insertPair output app.nextId app.surface_ids,
                nextId := app.nextId + 1 }, [])
    | OutputEvent.removed =>
      match lookup output app.surface_ids with
      | some surface_id =>
        if app.state = State.Locked then
          some ({ app with surface_ids := eraseKey output app.surface_ids },
                [Command.destroySurface surface_id])
        else
          some ({ app with surface_ids := eraseKey output app.surface_ids }, [])
      | Option.none => some (app, [])
    | OutputEvent.infoUpdate => some (app, [])
  | Message.sessionLockEvent se =>
    match se with
    | SessionLockEvent.focused _ _ => some (app, [])
    | SessionLockEvent.locked =>
      some ({ app with state := State.Locked },
            app.surface_ids.map (fun p => Command.createSurface p.2 p.1))
    | SessionLockEvent.unlocked =>
      some ({ app with state := State.Unlocked }, [Command.exitProcess 0])
    | SessionLockEvent.finished => Option.none
    | SessionLockEvent.notSupported => Option.none
    | SessionLockEvent.unfocused _ _ => Option.none
  | Message.none => Option.none
  | Message.unlock => some (app, [Command.unlockRequest])
  | Message.tick => some ({ app with now := t }, [])

/-- Run a list of messages through `update`, threading the state and
concatenating the issued commands; undefined on any `todo!()` branch. -/
def runMessages : App → List Message → Option (App × List Command)
  | app, [] => some (app, [])
  | app, m :: ms =>
    match update 0 app m with
    | some (app', cmds) =>
      match runMessages app' ms with
      | some (app'', cmds') => some (app'', cmds ++ cmds')
      | Option.none => Option.none
    | Option.none => Option.none

/-- An output hot-plug event, for replaying registry histories. -/
inductive OutEvent
  | created (o : Output)
  | removed (o : Output)
  deriving DecidableEq

/-- The message carrying an output hot-plug event. -/
def toMessage : OutEvent → Message
  | OutEvent.created o => Message.outputEvent OutputEvent.created o
  | OutEvent.removed o => Message.outputEvent OutputEvent.removed o

/-- Replay a sequence of output events through `update` (these branches are
always defined, so the `Option.none` fallback is dead). -/
def replay : App → List OutEvent → App
  | app, [] => app
  | app, e :: rest =>
    match update 0 app (toMessage e) with
    | some (app', _) => replay app' rest
    | Option.none => app

/-- Modelled from the spec: "the outputs that were created and not
subsequently removed".  One fold step of the alive flag of output `o`. -/
def aliveStep (b : Bool) (o : Output) : OutEvent → Bool
  | OutEvent.created o' => if o' = o then true else b
  | OutEvent.removed o' => if o' = o then false else b

/-- Modelled from the spec: output `o` was created and not subsequently
removed by the event sequence. -/
def aliveAfter (o : Output) (evs : List OutEvent) : Bool :=
  evs.foldl (fun b e => aliveStep b o e) false

/-- Well-formedness of the registry: keys are distinct (`HashMap` keys are
unique), surface ids are pairwise distinct, and every issued surface id is
below the fresh-id counter.  Holds in `init` and is preserved by `update`. -/
def Wf (app : App) : Prop :=
  (app.surface_ids.map Prod.fst).Nodup
  ∧ (app.surface_ids.map Prod.snd).Nodup
  ∧ ∀ p ∈ app.surface_ids, p.2 < app.nextId

/-- C2: for every prior state, a confirmed `SessionLockEvent::Unlocked`
sets the state to `Unlocked` and terminates the process with exit status 0;
the exit is the only command of the step, so no further command follows it. -/
theorem unlocked_confirmation_terminates (t : Nat) (app : App) :
    update t app (Message.sessionLockEvent SessionLockEvent.unlocked)
      = some ({ app with state := State.Unlocked }, [Command.exitProcess 0]) :=
  rfl

/-- C6 counterexample: processing `SessionLockEvent::Unfocused` does not
leave the state unchanged with no command — the step is undefined (the
source arm is `todo!()`, which panics), refuting the claim for the
focus-changed event `SessionUnfocused`. -/
theorem focus_events_counterexample :
    update 0 (init 0).1 (Message.sessionLockEvent (SessionLockEvent.unfocused 0 0))
        = Option.none
    ∧ (Option.none : Option (App × List Command)) ≠ some ((init 0).1, []) := by
  constructor
  · rfl
  · decide

/-- C6 amended: `SessionFocused` leaves the app state (session state,
registry, clock) unchanged and emits no command; `SessionUnfocused` has no
defined behavior (`todo!()` in the source) rather than being informational. -/
theorem focus_events_amended (t : Nat) (app : App) (a b : Nat) :
    update t app (Message.sessionLockEvent (SessionLockEvent.focused a b)) = some (app, [])
    ∧ update t app (Message.sessionLockEvent (SessionLockEvent.unfocused a b)) = Option.none :=
  ⟨rfl, rfl⟩

/-- C7: the message-handling step is not total: `SessionFinished`,
`SessionNotSupported`, `SessionUnfocused` and the internal `Message::None`
have no defined result in any state. -/
theorem unhandled_branches_undefined (t : Nat) (app : App) (a b : Nat) :
    update t app (Message.sessionLockEvent SessionLockEvent.finished) = Option.none
    ∧ update t app (Message.sessionLockEvent SessionLockEvent.notSupported) = Option.none
    ∧ update t app (Message.sessionLockEvent (SessionLockEvent.unfocused a b)) = Option.none
    ∧ update t app Message.none = Option.none :=
  ⟨rfl, rfl, rfl, rfl⟩

/-- C9: `OutputEvent::Removed` for an output with no registered surface id
issues no command and leaves the app state (session state and registry)
exactly as before; the warning log is the only effect. -/
theorem removed_unregistered_no_effect (t : Nat) (app : App) (o : Output)
    (h : lookup o app.surface_ids = Option.none) :
    update t app (Message.outputEvent OutputEvent.removed o) = some (app, []) := by
  simp [update, h]

/-- C9 witness. -/
theorem removed_unregistered_no_effect_witness :
    update 0 (init 0).1 (Message.outputEvent OutputEvent.removed 3) = some ((init 0).1, []) :=
  removed_unregistered_no_effect 0 (init 0).1 3 rfl

/-- C10: handling `SessionLockEvent::Locked` does not inspect the prior
state: for every prior state `s` the step sets the state to `Locked` and
emits one create-surface command per registered output, so a duplicate
`Locked` confirmation re-emits create-surface commands for all known
outputs. -/
theorem locked_handling_state_independent (t : Nat) (app : App) (s : State) :
    update t { app with state := s } (Message.sessionLockEvent SessionLockEvent.locked)
      = some ({ app with state := State.Locked },
              app.surface_ids.map (fun p => Command.createSurface p.2 p.1)) :=
  rfl

/-- C5 counterexample: at process start the lock request is issued, but the
state after `App::init` is `Unlocked`, not `Locking`. -/
theorem init_state_counterexample :
    (init 0).2 = [Command.lockRequest]
    ∧ (init 0).1.state = State.Unlocked
    ∧ State.Unlocked ≠ State.Locking := by
  refine ⟨rfl, rfl, ?_⟩
  decide

/-- C5 amended: at process start the lock request is sent to the
compositor, but the state machine stays in the initial `Unlocked` state
(the `Locking` variant is declared yet never entered): no message-handling
step moves a non-`Locking` state to `Locking`, so the state first changes
when the compositor confirms the lock. -/
theorem init_lock_request_amended (t : Nat) :
    (init t).2 = [Command.lockRequest]
    ∧ (init t).1.state = State.Unlocked
    ∧ ∀ app msg app' cmds, update t app msg = some (app', cmds) →
        app.state ≠ State.Locking → app'.state ≠ State.Locking := by
  refine ⟨rfl, rfl, ?_⟩
  intro app msg app' cmds h hs
  cases msg with
  | none => simp [update] at h
  | outputEvent oe output =>
    cases oe with
    | created =>
      simp [update] at h
      obtain ⟨h1, -⟩ := h
      rw [← h1]
      exact hs
    | removed =>
      cases hl : lookup output app.surface_ids with
      | none =>
        simp [update, hl] at h
        obtain ⟨h1, -⟩ := h
        rw [← h1]
        exact hs
      | some sid =>
        by_cases hst : app.state = State.Locked
        · simp [update, hl, hst] at h
          obtain ⟨h1, -⟩ := h
          rw [← h1]
          simp
        · simp [update, hl, hst] at h
          obtain ⟨h1, -⟩ := h
          rw [← h1]
          exact hs
    | infoUpdate =>
      simp [update] at h
      obtain ⟨h1, -⟩ := h
      rw [← h1]
      exact hs
  | sessionLockEvent se =>
    cases se with
    | focused a b =>
      simp [update] at h
      obtain ⟨h1, -⟩ := h
      rw [← h1]
      exact hs
    | locked =>
      simp [update] at h
      obtain ⟨h1, -⟩ := h
      rw [← h1]
      simp
    | unlocked =>
      simp [update] at h
      obtain ⟨h1, -⟩ := h
      rw [← h1]
      simp
    | finished => simp [update] at h
    | notSupported => simp [update] at h
    | unfocused a b => simp [update] at h
  | unlock =>
    simp [update] at h
    obtain ⟨h1, -⟩ := h
    rw [← h1]
    exact hs
  | tick =>
    simp [update] at h
    obtain ⟨h1, -⟩ := h
    rw [← h1]
    exact hs

/-- C5 amended witness. -/
theorem init_lock_request_amended_witness :
    (init 0).2 = [Command.lockRequest]
    ∧ (init 0).1.state ≠ State.Locking := by
  have h := init_lock_request_amended 0
  refine ⟨h.1, ?_⟩
  have h3 := h.2.2 (init 0).1 Message.tick (init 0).1 [] rfl
  exact h3 (by rw [h.2.1]; decide)

lemma lookup_mem {k : Output} {v : SurfaceId} {l : List (Output × SurfaceId)}
    (h : lookup k l = some v) : (k, v) ∈ l := by
  induction l with
  | nil => simp [lookup] at h
  | cons p rest ih =>
    by_cases hp : p.1 = k
    · simp [lookup, hp] at h
      have hkv : (k, v) = p := by rw [← hp, ← h]
      rw [hkv]
      exact List.mem_cons_self p rest
    · simp [lookup, hp] at h
      exact List.mem_cons_of_mem _ (ih h)

lemma lookup_eq_none_of_not_mem {k : Output} {l : List (Output × SurfaceId)}
    (h : ∀ p ∈ l, p.1 ≠ k) : lookup k l = Option.none := by
  induction l with
  | nil => rfl
  | cons p rest ih =>
    have hp : p.1 ≠ k := h p (List.mem_cons_self p rest)
    simp [lookup, hp]
    exact ih (fun q hq => h q (List.mem_cons_of_mem _ hq))

lemma eraseKey_eq_of_lookup_none {k : Output} {l : List (Output × SurfaceId)}
    (h : lookup k l = Option.none) : eraseKey k l = l := by
  induction l with
  | nil => rfl
  | cons p rest ih =>
    by_cases hp : p.1 = k
    · simp [lookup, hp] at h
    · simp [lookup, hp] at h
      simp [eraseKey, hp, ih h]

lemma lookup_insertPair (k k' : Output) (v : SurfaceId) (l : List (Output × SurfaceId)) :
    lookup k' (insertPair k v l) = if k' = k then some v else lookup k' l := by
  induction l with
  | nil =>
    by_cases h : k' = k
    · simp [insertPair, lookup, h]
    · have h2 : ¬ k = k' := fun hh => h hh.symm
      simp [insertPair, lookup, h, h2]
  | cons p rest ih =>
    by_cases hp : p.1 = k
    · by_cases h : k' = k
      · simp [insertPair, lookup, hp, h]
      · have h2 : ¬ k = k' := fun hh => h hh.symm
        have hp2 : ¬ p.1 = k' := by rw [hp]; exact h2
        simp [insertPair, lookup, hp, h, h2, hp2]
    · by_cases h2 : p.1 = k'
      · have hk : ¬ k' = k := fun hh => hp (h2.trans hh)
        simp [insertPair, lookup, hp, h2, hk]
      · simp [insertPair, lookup, hp, h2, ih]

lemma mem_insertPair {p : Output × SurfaceId} {k : Output} {v : SurfaceId}
    {l : List (Output × SurfaceId)} (h : p ∈ insertPair k v l) :
    p = (k, v) ∨ p ∈ l := by
  induction l with
  | nil => simpa [insertPair] using h
  | cons q rest ih =>
    by_cases hq : q.1 = k
    · simp [insertPair, hq] at h
      rcases h with h | h
      · exact Or.inl h
      · exact Or.inr (List.mem_cons_of_mem _ h)
    · simp [insertPair, hq] at h
      rcases h with h | h
      · exact Or.inr (by simp [h])
      · rcases ih h with h' | h'
        · exact Or.inl h'
        · exact Or.inr (List.mem_cons_of_mem _ h')

lemma keys_nodup_insertPair {k : Output} {v : SurfaceId} {l : List (Output × SurfaceId)}
    (h : (l.map Prod.fst).Nodup) : ((insertPair k v l).map Prod.fst).Nodup := by
  induction l with
  | nil => simp [insertPair]
  | cons q rest ih =>
    rw [List.map_cons, List.nodup_cons] at h
    obtain ⟨hq, hrest⟩ := h
    by_cases hqk : q.1 = k
    · have hins : insertPair k v (q :: rest) = (k, v) :: rest := by
        simp [insertPair, hqk]
      rw [hins, List.map_cons, List.nodup_cons]
      exact ⟨hqk ▸ hq, hrest⟩
    · have hins : insertPair k v (q :: rest) = q :: insertPair k v rest := by
        simp [insertPair, hqk]
      rw [hins, List.map_cons, List.nodup_cons]
      refine ⟨?_, ih hrest⟩
      intro hmem
      obtain ⟨p, hp, hpe⟩ := List.mem_map.1 hmem
      rcases mem_insertPair hp with rfl | hp'
      · exact hqk hpe.symm
      · exact hq (hpe ▸ List.mem_map_of_mem Prod.fst hp')

lemma snd_nodup_insertPair {k : Output} {v : SurfaceId} {l : List (Output × SurfaceId)}
    (h : (l.map Prod.snd).Nodup) (hv : v ∉ l.map Prod.snd) :
    ((insertPair k v l).map Prod.snd).Nodup := by
  induction l with
  | nil => simp [insertPair]
  | cons q rest ih =>
    rw [List.map_cons, List.nodup_cons] at h
    obtain ⟨hq, hrest⟩ := h
    rw [List.map_cons] at hv
    have hv1 : v ≠ q.2 := fun hh => hv (hh ▸ List.mem_cons_self _ _)
    have hv2 : v ∉ rest.map Prod.snd := fun hh => hv (List.mem_cons_of_mem _ hh)
    by_cases hqk : q.1 = k
    · have hins : insertPair k v (q :: rest) = (k, v) :: rest := by
        simp [insertPair, hqk]
      rw [hins, List.map_cons, List.nodup_cons]
      exact ⟨hv2, hrest⟩
    · have hins : insertPair k v (q :: rest) = q :: insertPair k v rest := by
        simp [insertPair, hqk]
      rw [hins, List.map_cons, List.nodup_cons]
      refine ⟨?_, ih hrest hv2⟩
      intro hmem
      obtain ⟨p, hp, hpe⟩ := List.mem_map.1 hmem
      rcases mem_insertPair hp with rfl | hp'
      · exact hv1 hpe
      · exact hq (hpe ▸ List.mem_map_of_mem Prod.snd hp')

lemma eraseKey_sublist (k : Output) (l : List (Output × SurfaceId)) :
    List.Sublist (eraseKey k l) l := by
  induction l with
  | nil => simp [eraseKey]
  | cons p rest ih =>
    by_cases hp : p.1 = k
    · have he : eraseKey k (p :: rest) = rest := by simp [eraseKey, hp]
      rw [he]
      exact List.sublist_cons_self p rest
    · have he : eraseKey k (p :: rest) = p :: eraseKey k rest := by simp [eraseKey, hp]
      rw [he]
      exact List.Sublist.cons₂ p ih

lemma lookup_eraseKey_self {k : Output} {l : List (Output × SurfaceId)}
    (hnd : (l.map Prod.fst).Nodup) : lookup k (eraseKey k l) = Option.none := by
  induction l with
  | nil => rfl
  | cons p rest ih =>
    rw [List.map_cons, List.nodup_cons] at hnd
    obtain ⟨hp, hrest⟩ := hnd
    by_cases hpk : p.1 = k
    · simp only [eraseKey, hpk, if_pos]
      refine lookup_eq_none_of_not_mem ?_
      intro q hq hqk
      exact hp (hpk ▸ hqk ▸ List.mem_map_of_mem Prod.fst hq)
    · simp [eraseKey, hpk, lookup, ih hrest]

lemma lookup_eraseKey_ne {k k' : Output} (h : k' ≠ k) (l : List (Output × SurfaceId)) :
    lookup k' (eraseKey k l) = lookup k' l := by
  induction l with
  | nil => rfl
  | cons p rest ih =>
    by_cases hp : p.1 = k
    · have hk : ¬ k = k' := fun hh => h hh.symm
      simp [eraseKey, hp, lookup, hk]
    · simp [eraseKey, hp, lookup, ih]

lemma lookup_snd_inj {l : List (Output × SurfaceId)} {o1 o2 : Output} {s : SurfaceId}
    (hnd : (l.map Prod.snd).Nodup)
    (h1 : lookup o1 l = some s) (h2 : lookup o2 l = some s) : o1 = o2 := by
  induction l with
  | nil => simp [lookup] at h1
  | cons p rest ih =>
    rw [List.map_cons, List.nodup_cons] at hnd
    obtain ⟨hp, hrest⟩ := hnd
    by_cases e1 : p.1 = o1 <;> by_cases e2 : p.1 = o2
    · rw [← e1, ← e2]
    · exfalso
      simp [lookup, e1] at h1
      simp [lookup, e2] at h2
      exact hp (h1 ▸ List.mem_map_of_mem Prod.snd (lookup_mem h2))
    · exfalso
      simp [lookup, e1] at h1
      simp [lookup, e2] at h2
      exact hp (h2 ▸ List.mem_map_of_mem Prod.snd (lookup_mem h1))
    · simp [lookup, e1] at h1
      simp [lookup, e2] at h2
      exact ih hrest h1 h2

lemma wf_insert {app : App} (hwf : Wf app) (o : Output) :
    Wf { app with
          surface_ids := insertPair o app.nextId app.surface_ids,
          nextId := app.nextId + 1 } := by
  obtain ⟨h1, h2, h3⟩ := hwf
  have hvnot : app.nextId ∉ app.surface_ids.map Prod.snd := by
    intro hmem
    obtain ⟨p, hp, hpe⟩ := List.mem_map.1 hmem
    have hlt := h3 p hp
    rw [hpe] at hlt
    exact Nat.lt_irrefl _ hlt
  refine ⟨keys_nodup_insertPair h1, snd_nodup_insertPair h2 hvnot, ?_⟩
  intro p hp
  rcases mem_insertPair hp with rfl | hp'
  · simp
  · exact Nat.lt_succ_of_lt (h3 p hp')

lemma wf_erase {app : App} (hwf : Wf app) (o : Output) :
    Wf { app with surface_ids := eraseKey o app.surface_ids } := by
  obtain ⟨h1, h2, h3⟩ := hwf
  have hsub := eraseKey_sublist o app.surface_ids
  refine ⟨h1.sublist (hsub.map Prod.fst), h2.sublist (hsub.map Prod.snd), ?_⟩
  intro p hp
  exact h3 p (hsub.subset hp)

lemma replay_created (app : App) (o : Output) (evs : List OutEvent) :
    replay app (OutEvent.created o :: evs)
      = replay { app with
                  surface_ids := insertPair o app.nextId app.surface_ids,
                  nextId := app.nextId + 1 } evs :=
  rfl

lemma replay_removed (app : App) (o : Output) (evs : List OutEvent) :
    replay app (OutEvent.removed o :: evs)
      = replay { app with surface_ids := eraseKey o app.surface_ids } evs := by
  cases hl : lookup o app.surface_ids with
  | none =>
    have he : eraseKey o app.surface_ids = app.surface_ids :=
      eraseKey_eq_of_lookup_none hl
    simp [replay, toMessage, update, hl, he]
  | some sid =>
    by_cases hst : app.state = State.Locked
    · simp [replay, toMessage, update, hl, hst]
    · simp [replay, toMessage, update, hl, hst]

lemma wf_replay (evs : List OutEvent) :
    ∀ app : App, Wf app → Wf (replay app evs) := by
  induction evs with
  | nil => intro app hwf; exact hwf
  | cons e rest ih =>
    intro app hwf
    cases e with
    | created o =>
      rw [replay_created]
      exact ih _ (wf_insert hwf o)
    | removed o =>
      rw [replay_removed]
      exact ih _ (wf_erase hwf o)

lemma lookup_replay_isSome (evs : List OutEvent) :
    ∀ app : App, Wf app → ∀ o : Output,
      (lookup o (replay app evs).surface_ids).isSome
        = List.foldl (fun b e => aliveStep b o e) (lookup o app.surface_ids).isSome evs := by
  induction evs with
  | nil => intro app _ o; simp [replay]
  | cons e rest ih =>
    intro app hwf o
    cases e with
    | created o' =>
      rw [replay_created, ih _ (wf_insert hwf o'), List.foldl_cons]
      congr 1
      rw [lookup_insertPair]
      by_cases h : o = o'
      · simp [h, aliveStep]
      · have h2 : ¬ o' = o := fun hh => h hh.symm
        simp [aliveStep, h, h2]
    | removed o' =>
      rw [replay_removed, ih _ (wf_erase hwf o'), List.foldl_cons]
      congr 1
      by_cases h : o = o'
      · subst h
        rw [lookup_eraseKey_self hwf.1]
        simp [aliveStep]
      · have h2 : ¬ o' = o := fun hh => h hh.symm
        rw [lookup_eraseKey_ne h]
        simp [aliveStep, h2]

/-- C1: in `Locking`, the compositor's `Locked` confirmation sets the state
to `Locked` and the step's command batch is exactly one create-surface
command per (output, surface id) pair of the registry (each pair counted
once when the registry keys are distinct, as they always are); in
particular the scenario `OutputCreated(A)`, `OutputCreated(B)`,
`SessionLocked` from the initial state issues exactly the two commands
`CreateSurface` for A and for B. -/
theorem locking_locked_creates_surfaces (t : Nat) (app : App)
    (hst : app.state = State.Locking)
    (hnd : (app.surface_ids.map Prod.fst).Nodup) :
    update t app (Message.sessionLockEvent SessionLockEvent.locked)
      = some ({ app with state := State.Locked },
              app.surface_ids.map (fun p => Command.createSurface p.2 p.1))
    ∧ (∀ p ∈ app.surface_ids,
        (app.surface_ids.map (fun q => Command.createSurface q.2 q.1)).count
          (Command.createSurface p.2 p.1) = 1)
    ∧ runMessages (init 0).1
        [Message.outputEvent OutputEvent.created 0,
         Message.outputEvent OutputEvent.created 1,
         Message.sessionLockEvent SessionLockEvent.locked]
      = some ({ now := 0, surface_ids := [(0, 0), (1, 1)], state := State.Locked, nextId := 2 },
              [Command.createSurface 0 0, Command.createSurface 1 1]) := by
  refine ⟨rfl, ?_, by decide⟩
  intro p hp
  have hinj : Function.Injective (fun q : Output × SurfaceId => Command.createSurface q.2 q.1) := by
    intro a b hab
    simp only [Command.createSurface.injEq] at hab
    exact Prod.ext hab.2 hab.1
  have hpairs : app.surface_ids.Nodup := List.Nodup.of_map Prod.fst hnd
  have hmap : (app.surface_ids.map (fun q => Command.createSurface q.2 q.1)).Nodup :=
    hpairs.map hinj
  exact List.count_eq_one_of_mem hmap (List.mem_map_of_mem _ hp)

/-- C1 witness. -/
theorem locking_locked_creates_surfaces_witness :
    update 0 (⟨0, [(4, 9)], State.Locking, 10⟩ : App)
        (Message.sessionLockEvent SessionLockEvent.locked)
      = some ((⟨0, [(4, 9)], State.Locked, 10⟩ : App), [Command.createSurface 9 4]) :=
  (locking_locked_creates_surfaces 0 ⟨0, [(4, 9)], State.Locking, 10⟩ rfl (by decide)).1

/-- C3: in any defined step, a `DestroySurface` command for surface id `s`
is among the issued commands exactly when the message is `OutputRemoved`
for an output registered with id `s` and the session state is `Locked`;
removals in other states, or of unregistered outputs, issue no destroy
command. -/
theorem destroy_iff_removed_while_locked (t : Nat) (app : App) (msg : Message)
    (app' : App) (cmds : List Command) (s : SurfaceId)
    (h : update t app msg = some (app', cmds)) :
    Command.destroySurface s ∈ cmds ↔
      ∃ o, msg = Message.outputEvent OutputEvent.removed o
        ∧ app.state = State.Locked ∧ lookup o app.surface_ids = some s := by
  cases msg with
  | none => simp [update] at h
  | outputEvent oe output =>
    cases oe with
    | created =>
      simp [update] at h
      obtain ⟨-, h2⟩ := h
      subst h2
      simp
    | removed =>
      cases hl : lookup output app.surface_ids with
      | none =>
        simp [update, hl] at h
        obtain ⟨-, h2⟩ := h
        subst h2
        simp
        intro hst hlo
        rw [hl] at hlo
        exact Option.noConfusion hlo
      | some sid =>
        by_cases hst : app.state = State.Locked
        · simp [update, hl, hst] at h
          obtain ⟨-, h2⟩ := h
          subst h2
          simp
          constructor
          · rintro rfl
            exact ⟨hst, hl⟩
          · rintro ⟨-, hlo⟩
            rw [hl] at hlo
            injection hlo with hh
            exact hh.symm
        · simp [update, hl, hst] at h
          obtain ⟨-, h2⟩ := h
          subst h2
          simp
          intro hst2 hlo
          exact absurd hst2 hst
    | infoUpdate =>
      simp [update] at h
      obtain ⟨-, h2⟩ := h
      subst h2
      simp
  | sessionLockEvent se =>
    cases se with
    | focused a b =>
      simp [update] at h
      obtain ⟨-, h2⟩ := h
      subst h2
      simp
    | locked =>
      simp [update] at h
      obtain ⟨-, h2⟩ := h
      subst h2
      simp
    | unlocked =>
      simp [update] at h
      obtain ⟨-, h2⟩ := h
      subst h2
      simp
    | finished => simp [update] at h
    | notSupported => simp [update] at h
    | unfocused a b => simp [update] at h
  | unlock =>
    simp [update] at h
    obtain ⟨-, h2⟩ := h
    subst h2
    simp
  | tick =>
    simp [update] at h
    obtain ⟨-, h2⟩ := h
    subst h2
    simp

/-- C3 witness: a removal of a registered output while `Locked` does issue
its destroy command. -/
theorem destroy_iff_removed_while_locked_witness :
    Command.destroySurface 9 ∈ [Command.destroySurface 9] :=
  (destroy_iff_removed_while_locked 0 ⟨0, [(4, 9)], State.Locked, 10⟩
      (Message.outputEvent OutputEvent.removed 4)
      ⟨0, [], State.Locked, 10⟩ [Command.destroySurface 9] 9 rfl).2
    ⟨4, rfl, rfl, rfl⟩

/-- C4 counterexample: from the initial state, after `OutputCreated(0)` the
registry maps output 0 to surface id 0; processing a duplicate
`OutputCreated(0)` does not leave the registry unchanged — output 0 is
re-mapped to the fresh surface id 1, not its original id 0. -/
theorem duplicate_created_counterexample :
    lookup 0 (replay (init 0).1 [OutEvent.created 0]).surface_ids = some 0
    ∧ lookup 0 (replay (init 0).1 [OutEvent.created 0, OutEvent.created 0]).surface_ids = some 1
    ∧ some (1 : SurfaceId) ≠ some (0 : SurfaceId) := by
  refine ⟨rfl, rfl, ?_⟩
  decide

/-- C4 amended: a duplicate `OutputCreated(A)` for an already registered
output replaces A's mapping with a fresh surface id (the current counter
value); the old surface id is returned to the handler, which only logs it
as a warning — no command is emitted, the session state is untouched, and
every other output's mapping is unchanged. -/
theorem duplicate_created_amended (t : Nat) (app : App) (o : Output) (s : SurfaceId)
    (h : lookup o app.surface_ids = some s) :
    update t app (Message.outputEvent OutputEvent.created o)
      = some ({ app with
                  surface_ids := insertPair o app.nextId app.surface_ids,
                  nextId := app.nextId + 1 }, [])
    ∧ lookup o (insertPair o app.nextId app.surface_ids) = some app.nextId
    ∧ ∀ o', o' ≠ o →
        lookup o' (insertPair o app.nextId app.surface_ids) = lookup o' app.surface_ids := by
  refine ⟨rfl, ?_, ?_⟩
  · rw [lookup_insertPair]
    simp
  · intro o' hne
    rw [lookup_insertPair]
    simp [hne]

/-- C4 amended witness. -/
theorem duplicate_created_amended_witness :
    update 0 (⟨0, [(4, 9)], State.Unlocked, 10⟩ : App)
        (Message.outputEvent OutputEvent.created 4)
      = some ((⟨0, [(4, 10)], State.Unlocked, 11⟩ : App), []) :=
  (duplicate_created_amended 0 ⟨0, [(4, 9)], State.Unlocked, 10⟩ 4 9 rfl).1

/-- C8: replaying any finite sequence of `OutputCreated`/`OutputRemoved`
events from the initial state leaves the registry containing exactly the
outputs that were created and not subsequently removed, and the surface
ids of distinct registered outputs are pairwise distinct. -/
theorem registry_replay_exact (evs : List OutEvent) :
    (∀ o, (lookup o (replay (init 0).1 evs).surface_ids).isSome = aliveAfter o evs)
    ∧ ∀ o1 o2 s1 s2, o1 ≠ o2 →
        lookup o1 (replay (init 0).1 evs).surface_ids = some s1 →
        lookup o2 (replay (init 0).1 evs).surface_ids = some s2 →
        s1 ≠ s2 := by
  have hwf0 : Wf (init 0).1 := by
    refine ⟨?_, ?_, ?_⟩ <;> simp [init]
  constructor
  · intro o
    have hmain := lookup_replay_isSome evs (init 0).1 hwf0 o
    simpa [aliveAfter, init, lookup] using hmain
  · intro o1 o2 s1 s2 hne h1 h2 heq
    subst heq
    have hwf := wf_replay evs (init 0).1 hwf0
    exact hne (lookup_snd_inj hwf.2.1 h1 h2)

/-- C8 witness: after creating outputs 5 and 7 the registry holds both with
the distinct surface ids 0 and 1. -/
theorem registry_replay_exact_witness :
    lookup 5 (replay (init 0).1 [OutEvent.created 5, OutEvent.created 7]).surface_ids = some 0
    ∧ lookup 7 (replay (init 0).1 [OutEvent.created 5, OutEvent.created 7]).surface_ids = some 1
    ∧ (0 : SurfaceId) ≠ 1 :=
  ⟨rfl, rfl,
    (registry_replay_exact [OutEvent.created 5, OutEvent.created 7]).2 5 7 0 1
      (by decide) rfl rfl⟩
